import Mathlib

/-!
# Train ticket system: inventory and waitlist state machine

A shallow embedding of `server/main.go` (the `TicketSystem` type, its five
operations and the request handlers that wrap them), followed by theorems about
the embedded program.

Modelling conventions.

* Go `int` is `Int`.  No arithmetic in the embedded functions can leave the
  machine range: `Sold` moves only between `0` and `Total`, `Position` is a slice
  index plus one, and `OrderCount` counts `WaitOrder` objects that are all kept
  alive by `Orders`, so it is bounded by the number of objects memory can hold.
* `*WaitOrder` is an index into `heap`, the list of all `WaitOrder` objects
  allocated so far (allocation appends).  `WaitQueue` and `Orders` hold such
  indices, so both see a write made through either.
* `time.Now()` is an argument of the function that reads the clock.
* The mutex is not modelled: every operation holds the lock for its whole body,
  so a run of the system is a sequence of whole operations.
-/

namespace TrainTicket

/-! ## Data model -/

/-- Go `type Train struct`. -/
structure Train where
  ID : String
  From : String
  To : String
  Total : Int
  Sold : Int
  Date : String
  deriving DecidableEq, Repr

/-- Go `type Passenger struct`. -/
structure Passenger where
  ID : String
  Name : String
  deriving DecidableEq, Repr

/-- Go `type WaitOrder struct`; `CreateTime` is the clock reading. -/
structure WaitOrder where
  OrderID : String
  Passenger : Passenger
  TrainID : String
  Date : String
  CreateTime : Nat
  Position : Int
  Status : String
  deriving DecidableEq, Repr

/-- Go `type BuyRequest struct`. -/
structure BuyRequest where
  Passenger : Passenger
  TrainID : String
  Date : String
  deriving DecidableEq, Repr

/-- Go `type WaitRequest struct`. -/
structure WaitRequest where
  Passenger : Passenger
  TrainID : String
  Date : String
  deriving DecidableEq, Repr

/-- Go `type CheckWaitRequest struct`. -/
structure CheckWaitRequest where
  OrderID : String
  deriving DecidableEq, Repr

/-- Go `type TicketSystem struct` (without the mutex), together with the heap of
`WaitOrder` objects its pointers refer to. -/
structure TicketSystem where
  Train : Train
  heap : List WaitOrder
  WaitQueue : List Nat
  Orders : String → Option Nat
  OrderCount : Int

/-! ## Heap access -/

/-- Read through a `*WaitOrder`.  The pointers the program holds are never nil and
always refer to an allocated object (`Inv` below has it for every reachable
state), so `none` does not arise on a run. -/
def load (h : List WaitOrder) (p : Nat) : Option WaitOrder := h[p]?

/-- Write through a `*WaitOrder`: replace the object at `p` by `f` of it. -/
def store (h : List WaitOrder) (p : Nat) (f : WaitOrder → WaitOrder) : List WaitOrder :=
  match h[p]? with
  | some o => h.set p (f o)
  | none => h

/-- The assignment `order.Position = v`. -/
def setPosition (v : Int) (o : WaitOrder) : WaitOrder := { o with Position := v }

/-- The assignment `order.Status = v`. -/
def setStatus (v : String) (o : WaitOrder) : WaitOrder := { o with Status := v }

/-- Go `fmt.Sprintf("ORDER_%d", n)`. -/
def sprintfOrder (n : Int) : String := "ORDER_" ++ toString n

/-! ## Operations of `TicketSystem` -/

/-- Go `NewTicketSystem`; `today` is `time.Now().Format("2006-01-02")`. -/
def NewTicketSystem (today : String) : TicketSystem :=
  { Train := { ID := "G1001", From := "武汉", To := "北京", Total := 100, Sold := 0,
               Date := today }
    heap := []
    WaitQueue := []
    Orders := fun _ => none
    OrderCount := 0 }

/-- Go `(*TicketSystem).QueryTicket`. -/
def QueryTicket (ts : TicketSystem) : Train := ts.Train

/-- Go `(*TicketSystem).BuyTicket`: the new state and the returned pair. -/
def BuyTicket (ts : TicketSystem) (_passenger : Passenger) : TicketSystem × (Bool × String) :=
  if ts.Train.Sold < ts.Train.Total then
    ({ ts with Train := { ts.Train with Sold := ts.Train.Sold + 1 } }, (true, "购票成功"))
  else
    (ts, (false, "车票已售罄，可选择候补"))

/-- Go `(*TicketSystem).AddToWaitList`: the new state and the returned pointer. -/
def AddToWaitList (ts : TicketSystem) (req : WaitRequest) (now : Nat) : TicketSystem × Nat :=
  let count := ts.OrderCount + 1
  let order : WaitOrder :=
    { OrderID := sprintfOrder count
      Passenger := req.Passenger
      TrainID := req.TrainID
      Date := req.Date
      CreateTime := now
      Position := (ts.WaitQueue.length : Int) + 1
      Status := "waiting" }
  let p := ts.heap.length
  ({ ts with
      OrderCount := count
      heap := ts.heap ++ [order]
      WaitQueue := ts.WaitQueue ++ [p]
      Orders := fun k => if k = order.OrderID then some p else ts.Orders k }, p)

/-- The loop `for i, waitOrder := range ts.WaitQueue` of `CheckWaitPosition`, from
index `i` on: the index of the first queue entry whose `OrderID` is `orderID`. -/
def scanQueue (h : List WaitOrder) : List Nat → String → Nat → Option Nat
  | [], _, _ => none
  | q :: rest, orderID, i =>
    match load h q with
    | some waitOrder =>
      if waitOrder.OrderID = orderID then some i else scanQueue h rest orderID (i + 1)
    | none => scanQueue h rest orderID (i + 1)

/-- Go `(*TicketSystem).CheckWaitPosition`: the new state (the function writes
`order.Position`) and the returned pointer, `none` for `(nil, false)`. -/
def CheckWaitPosition (ts : TicketSystem) (orderID : String) : TicketSystem × Option Nat :=
  match ts.Orders orderID with
  | none => (ts, none)
  | some order =>
    match scanQueue ts.heap ts.WaitQueue orderID 0 with
    | some i => ({ ts with heap := store ts.heap order (setPosition ((i : Int) + 1)) }, some order)
    | none => (ts, some order)

/-- The loop `for i, order := range ts.WaitQueue { order.Position = i + 1 }` of
`ProcessRefund`, from index `i` on. -/
def renumber (h : List WaitOrder) : List Nat → Nat → List WaitOrder
  | [], _ => h
  | order :: rest, i => renumber (store h order (setPosition ((i : Int) + 1))) rest (i + 1)

/-- Go `(*TicketSystem).ProcessRefund`. -/
def ProcessRefund (ts : TicketSystem) : TicketSystem :=
  if ts.Train.Sold > 0 then
    let train1 : Train := { ts.Train with Sold := ts.Train.Sold - 1 }
    match ts.WaitQueue with
    | [] => { ts with Train := train1 }
    | firstOrder :: rest =>
      let heap1 := store ts.heap firstOrder (setStatus "success")
      let heap2 := renumber heap1 rest 0
      { ts with
          Train := { train1 with Sold := train1.Sold + 1 }
          heap := heap2
          WaitQueue := rest }
  else ts

/-! ## Request handlers of `TicketServer` -/

/-- What `sendResponse` marshals into the `data` field. -/
inductive Payload where
  | train (t : Train)
  | order (o : WaitOrder)
  deriving DecidableEq, Repr

set_option linter.dupNamespace false in
/-- Go `type Message struct`, with `Data` before marshalling (`none` is `nil`). -/
structure Message where
  MsgType : String
  Data : Option Payload
  Success : Bool
  Message : String
  deriving DecidableEq, Repr

/-- Go constant `MsgResponse`. -/
def MsgResponse : String := "response"

/-- Go `(*TicketServer).sendResponse`: the message written to the connection. -/
def sendResponse (success : Bool) (message : String) (data : Option Payload) : Message :=
  { MsgType := MsgResponse, Data := data, Success := success, Message := message }

/-- Go `(*TicketServer).sendError`. -/
def sendError (message : String) : Message := sendResponse false message none

/-- Go `(*TicketServer).handleQueryTicket`. -/
def handleQueryTicket (ts : TicketSystem) : TicketSystem × Message :=
  (ts, sendResponse true "查询成功" (some (Payload.train (QueryTicket ts))))

/-- Go `(*TicketServer).handleBuyTicket`; `req = none` is a payload that fails to
unmarshal. -/
def handleBuyTicket (ts : TicketSystem) (req : Option BuyRequest) : TicketSystem × Message :=
  match req with
  | none => (ts, sendError "请求数据解析错误")
  | some r =>
    let res := BuyTicket ts r.Passenger
    (res.1, sendResponse res.2.1 res.2.2 none)

/-- Go `(*TicketServer).handleWaitList`; `req = none` is a payload that fails to
unmarshal. -/
def handleWaitList (ts : TicketSystem) (req : Option WaitRequest) (now : Nat) :
    TicketSystem × Message :=
  match req with
  | none => (ts, sendError "请求数据解析错误")
  | some r =>
    let res := AddToWaitList ts r now
    (res.1, sendResponse true "候补成功" ((load res.1.heap res.2).map Payload.order))

/-- Go `(*TicketServer).handleCheckWait`; `req = none` is a payload that fails to
unmarshal. -/
def handleCheckWait (ts : TicketSystem) (req : Option CheckWaitRequest) :
    TicketSystem × Message :=
  match req with
  | none => (ts, sendError "请求数据解析错误")
  | some r =>
    let res := CheckWaitPosition ts r.OrderID
    match res.2 with
    | none => (res.1, sendResponse false "订单不存在" none)
    | some order => (res.1, sendResponse true "查询成功" ((load res.1.heap order).map Payload.order))

/-- Go `(*TicketServer).handleRefund`. -/
def handleRefund (ts : TicketSystem) : TicketSystem × Message :=
  (ProcessRefund ts, sendResponse true "退票成功" none)

/-! ## Runs of the system -/

/-- One call of an operation of `TicketSystem`, with its arguments. -/
inductive Op where
  | query
  | buy (passenger : Passenger)
  | wait (req : WaitRequest) (now : Nat)
  | check (orderID : String)
  | refund
  deriving DecidableEq, Repr

/-- The state after one call. -/
def step (ts : TicketSystem) : Op → TicketSystem
  | Op.query => ts
  | Op.buy passenger => (BuyTicket ts passenger).1
  | Op.wait req now => (AddToWaitList ts req now).1
  | Op.check orderID => (CheckWaitPosition ts orderID).1
  | Op.refund => ProcessRefund ts

/-- The state after a sequence of calls made on `ts`. -/
def runFrom (ts : TicketSystem) (ops : List Op) : TicketSystem := ops.foldl step ts

/-- The state after a sequence of calls made on a fresh system. -/
def run (today : String) (ops : List Op) : TicketSystem := runFrom (NewTicketSystem today) ops

/-! ## Auxiliary definitions for the proofs -/

/-- Value of a decimal digit character. -/
def digitVal (c : Char) : Nat := c.toNat - 48

/-- Value of a string of decimal digits, most significant first. -/
def decVal (l : List Char) : Nat := l.foldl (fun a c => a * 10 + digitVal c) 0

/-- The representation invariant of `TicketSystem`, with `k` the number of
promotions made so far: the `j`-th object allocated carries the `j`-th order
identifier, `Orders` maps exactly the identifiers issued to their objects, the
queue holds the objects from the `k`-th on in allocation order, and status and
position of every object agree with its place. -/
structure Inv (s : TicketSystem) (k : Nat) : Prop where
  total : s.Train.Total = 100
  sold_nonneg : 0 ≤ s.Train.Sold
  sold_le : s.Train.Sold ≤ s.Train.Total
  count : s.OrderCount = (s.heap.length : Int)
  promoted_le : k ≤ s.heap.length
  queue : s.WaitQueue = List.range' k (s.heap.length - k)
  ids : ∀ p o, load s.heap p = some o → o.OrderID = sprintfOrder ((p : Int) + 1)
  finished : ∀ p o, load s.heap p = some o → p < k → o.Status = "success"
  waiting : ∀ p o, load s.heap p = some o → k ≤ p →
    o.Status = "waiting" ∧ o.Position = ((p - k : Nat) : Int) + 1
  index : ∀ id p, s.Orders id = some p ↔ (p < s.heap.length ∧ id = sprintfOrder ((p : Int) + 1))

/-- A series of `AddToWaitList` calls, one for each request with its clock
reading: the state after the last and the pointers returned, in call order. -/
def enrollAll : TicketSystem → List (WaitRequest × Nat) → TicketSystem × List Nat
  | ts, [] => (ts, [])
  | ts, (req, now) :: rest =>
    let added := AddToWaitList ts req now
    let more := enrollAll added.1 rest
    (more.1, added.2 :: more.2)

/-- The state after `j` successive `ProcessRefund` calls. -/
def refundTimes : Nat → TicketSystem → TicketSystem
  | 0, ts => ts
  | j + 1, ts => refundTimes j (ProcessRefund ts)

/-- The `Status` field of the entry behind a pointer. -/
def statusOf (ts : TicketSystem) (p : Nat) : Option String := (load ts.heap p).map (·.Status)

/-- The `Position` field of the entry behind a pointer. -/
def positionOf (ts : TicketSystem) (p : Nat) : Option Int := (load ts.heap p).map (·.Position)

/-- The `OrderID` field of the entry behind a pointer. -/
def orderIDOf (ts : TicketSystem) (p : Nat) : Option String := (load ts.heap p).map (·.OrderID)

/-- The number of `AddToWaitList` calls in a sequence of calls. -/
def waitCalls : List Op → Nat
  | [] => 0
  | Op.wait _ _ :: rest => waitCalls rest + 1
  | _ :: rest => waitCalls rest

/-- The order identifiers returned by the `AddToWaitList` calls of a sequence of
calls made on `ts`, in call order. -/
def issued (ts : TicketSystem) : List Op → List String
  | [] => []
  | Op.wait req now :: rest =>
    (orderIDOf (AddToWaitList ts req now).1 (AddToWaitList ts req now).2).toList
      ++ issued (step ts (Op.wait req now)) rest
  | op :: rest => issued (step ts op) rest

/-- The number of `BuyTicket` calls in a sequence of calls. -/
def buyCalls : List Op → Nat
  | [] => 0
  | Op.buy _ :: rest => buyCalls rest + 1
  | _ :: rest => buyCalls rest

/-- The booleans returned by the `BuyTicket` calls of a sequence of calls made on
`ts`, in call order. -/
def buyResults (ts : TicketSystem) : List Op → List Bool
  | [] => []
  | Op.buy passenger :: rest =>
    (BuyTicket ts passenger).2.1 :: buyResults (step ts (Op.buy passenger)) rest
  | op :: rest => buyResults (step ts op) rest

/-! ## Sample inputs -/

/-- A passenger. -/
def alice : Passenger := { ID := "P001", Name := "Alice" }

/-- A second passenger. -/
def bob : Passenger := { ID := "P002", Name := "Bob" }

/-- A third passenger. -/
def carol : Passenger := { ID := "P003", Name := "Carol" }

/-- The waitlist request of a passenger for the tracked train. -/
def requestOf (passenger : Passenger) : WaitRequest :=
  { Passenger := passenger, TrainID := "G1001", Date := "2024-01-01" }

/-- A fresh system. -/
def fresh : TicketSystem := NewTicketSystem "2024-01-01"

/-- One ticket sold, nobody waiting. -/
def soldOne : TicketSystem := run "2024-01-01" [Op.buy alice]

/-- One ticket sold, one passenger waiting. -/
def soldOneWaitOne : TicketSystem :=
  run "2024-01-01" [Op.buy alice, Op.wait (requestOf bob) 10]

/-- No ticket sold, one passenger waiting. -/
def soldNoneWaitOne : TicketSystem := run "2024-01-01" [Op.wait (requestOf bob) 10]

/-- The requests of Alice, Bob and Carol, in this order. -/
def threeRequests : List (WaitRequest × Nat) :=
  [(requestOf alice, 10), (requestOf bob, 11), (requestOf carol, 12)]

/-- One ticket sold, Alice, Bob and Carol waiting in this order. -/
def soldOneWaitThree : TicketSystem :=
  run "2024-01-01" [Op.buy alice, Op.wait (requestOf alice) 10, Op.wait (requestOf bob) 11,
    Op.wait (requestOf carol) 12]

/-- A purchase by each of the clients `1..n`, client `i` with the passenger that
`tryBuyTicket` of the test client sends: `ID_i`, `乘客_i`. -/
def purchases : Nat → List Op
  | 0 => []
  | n + 1 =>
    purchases n
      ++ [Op.buy { ID := "ID_" ++ toString (n + 1), Name := "乘客_" ++ toString (n + 1) }]

/-! ## Decimal formatting of order identifiers -/

theorem digitVal_digitChar (d : Nat) (h : d < 10) : digitVal (Nat.digitChar d) = d := by
  interval_cases d <;> rfl

theorem foldl_toDigitsCore (fuel : Nat) : ∀ (n : Nat) (ds : List Char), n < fuel →
    (Nat.toDigitsCore 10 fuel n ds).foldl (fun a c => a * 10 + digitVal c) 0
      = ds.foldl (fun a c => a * 10 + digitVal c) n := by
  induction fuel with
  | zero => intro n ds h; omega
  | succ fuel ih =>
    intro n ds h
    have hd : digitVal (Nat.digitChar (n % 10)) = n % 10 :=
      digitVal_digitChar _ (Nat.mod_lt _ (by decide))
    simp only [Nat.toDigitsCore]
    split
    · rename_i h0
      simp only [List.foldl_cons, hd]
      congr 1
      omega
    · rename_i h0
      rw [ih (n / 10) _ (by omega)]
      simp only [List.foldl_cons, hd]
      congr 1
      omega

theorem decVal_repr (n : Nat) : decVal (Nat.repr n).data = n := by
  unfold decVal Nat.repr Nat.toDigits
  simp only [List.asString]
  rw [foldl_toDigitsCore (n + 1) n [] (by omega)]
  rfl

/-- Distinct counter values are formatted as distinct order identifiers. -/
theorem sprintfOrder_inj (a b : Nat) (h : sprintfOrder (a : Int) = sprintfOrder (b : Int)) :
    a = b := by
  unfold sprintfOrder at h
  have h1 : (toString (a : Int)) = toString (b : Int) := by
    have := congrArg String.data h
    simp only [String.data_append, List.append_cancel_left_eq] at this
    exact String.ext this
  have h2 : Nat.repr a = Nat.repr b := h1
  have := congrArg (fun s => decVal s.data) h2
  simpa [decVal_repr] using this

/-! ## Heap lemmas -/

theorem store_length (h : List WaitOrder) (p : Nat) (f : WaitOrder → WaitOrder) :
    (store h p f).length = h.length := by
  unfold store
  split <;> simp

theorem load_store (h : List WaitOrder) (p q : Nat) (f : WaitOrder → WaitOrder) :
    load (store h p f) q = if q = p then (load h q).map f else load h q := by
  unfold store load
  split
  · rename_i o ho
    by_cases hq : q = p
    · subst hq
      have hlt : q < h.length := by
        rcases List.getElem?_eq_some_iff.mp ho with ⟨hlt, _⟩
        exact hlt
      simp [List.getElem?_set, ho, hlt]
    · have hq2 : ¬ p = q := fun h => hq h.symm
      simp [List.getElem?_set, hq, hq2]
  · rename_i ho
    by_cases hq : q = p
    · subst hq
      simp [ho]
    · simp [hq]

theorem store_same (h : List WaitOrder) (p : Nat) (f : WaitOrder → WaitOrder)
    (hf : ∀ o, load h p = some o → f o = o) : store h p f = h := by
  apply List.ext_getElem?
  intro q
  have := load_store h p q f
  unfold load at this hf
  rw [this]
  split
  · rename_i hq
    subst hq
    cases ho : h[q]? with
    | none => rfl
    | some o => simp [hf o ho]
  · rfl

theorem renumber_length (q : List Nat) : ∀ (h : List WaitOrder) (i : Nat),
    (renumber h q i).length = h.length := by
  induction q with
  | nil => intro h i; rfl
  | cons p rest ih => intro h i; simp [renumber, ih, store_length]

theorem load_renumber_range' (m : Nat) : ∀ (h : List WaitOrder) (a i p : Nat),
    load (renumber h (List.range' a m) i) p
      = if a ≤ p ∧ p < a + m then (load h p).map (setPosition (((p - a + i : Nat) : Int) + 1))
        else load h p := by
  induction m with
  | zero =>
    intro h a i p
    have h3 : ¬ (a ≤ p ∧ p < a + 0) := by omega
    rw [if_neg h3]
    rfl
  | succ m ih =>
    intro h a i p
    simp only [List.range'_succ, renumber]
    rw [ih, load_store]
    by_cases h1 : p = a
    · subst h1
      simp
    · by_cases h2 : a + 1 ≤ p ∧ p < a + 1 + m
      · have h3 : a ≤ p ∧ p < a + (m + 1) := by omega
        have h4 : p - (a + 1) + (i + 1) = p - a + i := by omega
        simp [h1, h2, h3, h4]
      · have h3 : ¬ (a ≤ p ∧ p < a + (m + 1)) := by omega
        simp [h1, h2, h3]

theorem scanQueue_range' (h : List WaitOrder)
    (hid : ∀ q o, load h q = some o → o.OrderID = sprintfOrder ((q : Int) + 1)) (p : Nat)
    (m : Nat) : ∀ (a i : Nat), a + m ≤ h.length →
    scanQueue h (List.range' a m) (sprintfOrder ((p : Int) + 1)) i
      = if a ≤ p ∧ p < a + m then some (p - a + i) else none := by
  induction m with
  | zero =>
    intro a i _
    have h3 : ¬ (a ≤ p ∧ p < a + 0) := by omega
    rw [if_neg h3]
    rfl
  | succ m ih =>
    intro a i ham
    have ha : a < h.length := by omega
    obtain ⟨o, ho⟩ : ∃ o, load h a = some o := ⟨h[a], by simp [load, ha]⟩
    simp only [List.range'_succ, scanQueue, ho]
    have hoid := hid a o ho
    by_cases hpa : p = a
    · subst hpa
      simp [hoid]
    · have hne : ¬ o.OrderID = sprintfOrder ((p : Int) + 1) := by
        rw [hoid]
        intro heq
        have := sprintfOrder_inj (a + 1) (p + 1) (by exact_mod_cast heq)
        omega
      rw [if_neg hne, ih (a + 1) (i + 1) (by omega)]
      by_cases h2 : a + 1 ≤ p ∧ p < a + 1 + m
      · have h3 : a ≤ p ∧ p < a + (m + 1) := by omega
        have h4 : p - (a + 1) + (i + 1) = p - a + i := by omega
        simp [h2, h3, h4]
      · have h3 : ¬ (a ≤ p ∧ p < a + (m + 1)) := by omega
        simp [h2, h3]

/-! ## Preservation of the invariant -/

theorem load_append_one (h : List WaitOrder) (o : WaitOrder) (p : Nat) :
    load (h ++ [o]) p = if p < h.length then load h p else if p = h.length then some o else none := by
  unfold load
  by_cases h1 : p < h.length
  · simp [h1, List.getElem?_append_left]
  · by_cases h2 : p = h.length
    · subst h2
      simp
    · have h3 : h.length + 1 ≤ p := by omega
      have h4 : (h ++ [o])[p]? = none := by
        apply List.getElem?_eq_none
        simp
        omega
      simp [h1, h2, h4]

theorem load_lt (h : List WaitOrder) (p : Nat) (o : WaitOrder) (hp : load h p = some o) :
    p < h.length := by
  unfold load at hp
  rcases List.getElem?_eq_some_iff.mp hp with ⟨hlt, _⟩
  exact hlt

theorem load_of_lt (h : List WaitOrder) (p : Nat) (hp : p < h.length) :
    ∃ o, load h p = some o := ⟨h[p], by simp [load, hp]⟩

theorem inv_new (today : String) : Inv (NewTicketSystem today) 0 where
  total := rfl
  sold_nonneg := le_refl _
  sold_le := by simp [NewTicketSystem]
  count := rfl
  promoted_le := le_refl _
  queue := rfl
  ids := by intro p o h; simp [NewTicketSystem, load] at h
  finished := by intro p o h; simp [NewTicketSystem, load] at h
  waiting := by intro p o h; simp [NewTicketSystem, load] at h
  index := by intro id p; simp [NewTicketSystem]

theorem inv_buy (s : TicketSystem) (k : Nat) (passenger : Passenger) (hs : Inv s k) :
    Inv (BuyTicket s passenger).1 k := by
  unfold BuyTicket
  split
  · rename_i hlt
    exact { total := hs.total
            sold_nonneg := by have := hs.sold_nonneg; simp only; omega
            sold_le := by simp only; omega
            count := hs.count
            promoted_le := hs.promoted_le
            queue := hs.queue
            ids := hs.ids
            finished := hs.finished
            waiting := hs.waiting
            index := hs.index }
  · exact hs

theorem inv_add (s : TicketSystem) (k : Nat) (req : WaitRequest) (now : Nat) (hs : Inv s k) :
    Inv (AddToWaitList s req now).1 k := by
  have hk := hs.promoted_le
  have hq := hs.queue
  have hlen : s.WaitQueue.length = s.heap.length - k := by rw [hq]; simp
  refine
    { total := hs.total
      sold_nonneg := hs.sold_nonneg
      sold_le := hs.sold_le
      count := ?_
      promoted_le := ?_
      queue := ?_
      ids := ?_
      finished := ?_
      waiting := ?_
      index := ?_ }
  · simp [AddToWaitList, hs.count]
  · simp [AddToWaitList]; omega
  · simp only [AddToWaitList, List.length_append, List.length_singleton]
    have h1 : s.heap.length + 1 - k = (s.heap.length - k) + 1 := by omega
    rw [h1, List.range'_concat, hq]
    simp
    omega
  · intro p o hp
    simp only [AddToWaitList, load_append_one] at hp
    split at hp
    · exact hs.ids p o hp
    · split at hp
      · rename_i h2
        cases hp
        simp [h2, hs.count]
      · cases hp
  · intro p o hp hpk
    simp only [AddToWaitList, load_append_one] at hp
    split at hp
    · exact hs.finished p o hp hpk
    · omega
  · intro p o hp hpk
    simp only [AddToWaitList, load_append_one] at hp
    split at hp
    · exact hs.waiting p o hp hpk
    · split at hp
      · rename_i h2
        cases hp
        refine ⟨rfl, ?_⟩
        simp only [hlen, h2]
      · cases hp
  · intro id p
    simp only [AddToWaitList, List.length_append, List.length_singleton, hs.count]
    by_cases hid : id = sprintfOrder ((s.heap.length : Int) + 1)
    · subst hid
      simp only [if_true, Option.some.injEq]
      constructor
      · intro h; subst h; exact ⟨by omega, rfl⟩
      · rintro ⟨_, h2⟩
        have := sprintfOrder_inj (s.heap.length + 1) (p + 1) (by exact_mod_cast h2)
        omega
    · simp only [if_neg hid, hs.index]
      constructor
      · rintro ⟨h1, h2⟩; exact ⟨by omega, h2⟩
      · rintro ⟨h1, h2⟩
        refine ⟨?_, h2⟩
        rcases Nat.lt_or_ge p s.heap.length with h3 | h3
        · exact h3
        · have h4 : p = s.heap.length := by omega
          subst h4
          exact absurd h2 hid

/-! ## Shape of the operations -/

/-- In a state that satisfies the invariant the loop of `CheckWaitPosition` finds
the order `p` exactly when it is still queued, at index `p - k`. -/
theorem scanQueue_inv (s : TicketSystem) (k p : Nat) (hs : Inv s k) :
    scanQueue s.heap s.WaitQueue (sprintfOrder ((p : Int) + 1)) 0
      = if k ≤ p ∧ p < s.heap.length then some (p - k) else none := by
  have hk := hs.promoted_le
  rw [hs.queue, scanQueue_range' s.heap hs.ids p (s.heap.length - k) k 0 (by omega)]
  by_cases h : k ≤ p ∧ p < s.heap.length
  · have h2 : k ≤ p ∧ p < k + (s.heap.length - k) := by omega
    simp [h, h2]
  · have h2 : ¬ (k ≤ p ∧ p < k + (s.heap.length - k)) := by omega
    simp [h, h2]

/-- In a state that satisfies the invariant the write of `CheckWaitPosition`
stores the position the entry already has: the state does not change. -/
theorem check_state (s : TicketSystem) (k : Nat) (orderID : String) (hs : Inv s k) :
    (CheckWaitPosition s orderID).1 = s := by
  unfold CheckWaitPosition
  cases hO : s.Orders orderID with
  | none => rfl
  | some p =>
    obtain ⟨hp, hid⟩ := (hs.index orderID p).mp hO
    subst hid
    simp only [scanQueue_inv s k p hs]
    by_cases h : k ≤ p ∧ p < s.heap.length
    · simp only [if_pos h]
      have : store s.heap p (setPosition (((p - k : Nat) : Int) + 1)) = s.heap := by
        apply store_same
        intro o ho
        have := (hs.waiting p o ho h.1).2
        cases o
        simp only [setPosition] at *
        simp [this]
      rw [this]
    · simp only [if_neg h]

/-- The result of `CheckWaitPosition` is the content of `Orders`. -/
theorem check_result (s : TicketSystem) (orderID : String) :
    (CheckWaitPosition s orderID).2 = s.Orders orderID := by
  unfold CheckWaitPosition
  cases hO : s.Orders orderID with
  | none => rfl
  | some p =>
    simp only
    split <;> rfl

/-- A refund on a state without a sold ticket changes nothing. -/
theorem refund_none (s : TicketSystem) (h : ¬ s.Train.Sold > 0) : ProcessRefund s = s := by
  unfold ProcessRefund
  rw [if_neg h]

/-- A refund on a state with a sold ticket and an empty queue. -/
theorem refund_empty (s : TicketSystem) (h : s.Train.Sold > 0) (hq : s.WaitQueue = []) :
    ProcessRefund s = { s with Train := { s.Train with Sold := s.Train.Sold - 1 } } := by
  unfold ProcessRefund
  rw [if_pos h]
  simp only
  split
  · rfl
  · rename_i heq; rw [hq] at heq; cases heq

/-- A refund on a state with a sold ticket and a non-empty queue. -/
theorem refund_cons (s : TicketSystem) (h : s.Train.Sold > 0) (first : Nat) (rest : List Nat)
    (hq : s.WaitQueue = first :: rest) :
    ProcessRefund s =
      { s with
          heap := renumber (store s.heap first (setStatus "success")) rest 0
          WaitQueue := rest } := by
  unfold ProcessRefund
  rw [if_pos h]
  simp only
  split
  · rename_i heq; rw [hq] at heq; cases heq
  · rename_i f r heq
    rw [hq] at heq
    cases heq
    have : s.Train.Sold - 1 + 1 = s.Train.Sold := by omega
    simp only [this]

/-! ## A promoting refund, and the invariant on every run -/

/-- The heap after the two writes of a promoting refund: the head `k` gets status
`"success"`, every later object gets its position recomputed. -/
theorem load_promote (h : List WaitOrder) (k p : Nat) :
    load (renumber (store h k (setStatus "success"))
        (List.range' (k + 1) (h.length - (k + 1))) 0) p
      = if p = k then (load h p).map (setStatus "success")
        else if k < p then (load h p).map (setPosition (((p - (k + 1) : Nat) : Int) + 1))
        else load h p := by
  rw [load_renumber_range', load_store]
  by_cases h1 : p = k
  · subst h1
    simp
  · by_cases h2 : k < p
    · by_cases h3 : p < h.length
      · have h4 : k + 1 ≤ p ∧ p < k + 1 + (h.length - (k + 1)) := by omega
        simp [h1, h2, h4]
      · have h4 : ¬ (k + 1 ≤ p ∧ p < k + 1 + (h.length - (k + 1))) := by omega
        have h5 : load h p = none := by
          unfold load
          exact List.getElem?_eq_none (by omega)
        simp [h1, h2, h4, h5]
    · have h4 : ¬ (k + 1 ≤ p ∧ p < k + 1 + (h.length - (k + 1))) := by omega
      simp [h1, h2, h4]

/-- A refund on a state that satisfies the invariant, with a sold ticket and a
queued entry: the state it produces. -/
theorem refund_promote (s : TicketSystem) (k : Nat) (hs : Inv s k) (hsold : s.Train.Sold > 0)
    (hk : k < s.heap.length) :
    ProcessRefund s =
      { s with
          heap := renumber (store s.heap k (setStatus "success"))
                    (List.range' (k + 1) (s.heap.length - (k + 1))) 0
          WaitQueue := List.range' (k + 1) (s.heap.length - (k + 1)) } := by
  apply refund_cons s hsold
  rw [hs.queue]
  have : s.heap.length - k = (s.heap.length - (k + 1)) + 1 := by omega
  rw [this, List.range'_succ]

theorem inv_refund_promote (s : TicketSystem) (k : Nat) (hs : Inv s k)
    (hsold : s.Train.Sold > 0) (hk : k < s.heap.length) : Inv (ProcessRefund s) (k + 1) := by
  rw [refund_promote s k hs hsold hk]
  have hlen : (renumber (store s.heap k (setStatus "success"))
      (List.range' (k + 1) (s.heap.length - (k + 1))) 0).length = s.heap.length := by
    rw [renumber_length, store_length]
  refine
    { total := hs.total
      sold_nonneg := hs.sold_nonneg
      sold_le := hs.sold_le
      count := ?_
      promoted_le := ?_
      queue := ?_
      ids := ?_
      finished := ?_
      waiting := ?_
      index := ?_ }
  · simp only [hlen]; exact hs.count
  · simp only [hlen]; omega
  · simp only [hlen]
  · intro p o hp
    simp only [load_promote] at hp
    split at hp
    · obtain ⟨o', ho', rfl⟩ := Option.map_eq_some'.mp hp
      exact hs.ids p o' ho'
    · split at hp
      · obtain ⟨o', ho', rfl⟩ := Option.map_eq_some'.mp hp
        exact hs.ids p o' ho'
      · exact hs.ids p o hp
  · intro p o hp hpk
    simp only [load_promote] at hp
    split at hp
    · obtain ⟨o', ho', rfl⟩ := Option.map_eq_some'.mp hp
      rfl
    · split at hp
      · omega
      · exact hs.finished p o hp (by omega)
  · intro p o hp hpk
    simp only [load_promote] at hp
    split at hp
    · omega
    · split at hp
      · obtain ⟨o', ho', rfl⟩ := Option.map_eq_some'.mp hp
        exact ⟨(hs.waiting p o' ho' (by omega)).1, rfl⟩
      · omega
  · intro id p
    simp only [hlen]
    exact hs.index id p

/-- Every call keeps the invariant; only a promoting refund moves `k`. -/
theorem inv_step (s : TicketSystem) (k : Nat) (op : Op) (hs : Inv s k) :
    ∃ k', Inv (step s op) k' := by
  cases op with
  | query => exact ⟨k, hs⟩
  | buy passenger => exact ⟨k, inv_buy s k passenger hs⟩
  | wait req now => exact ⟨k, inv_add s k req now hs⟩
  | check orderID =>
    refine ⟨k, ?_⟩
    simp only [step]
    rw [check_state s k orderID hs]
    exact hs
  | refund =>
    simp only [step]
    by_cases hsold : s.Train.Sold > 0
    · by_cases hk : k < s.heap.length
      · exact ⟨k + 1, inv_refund_promote s k hs hsold hk⟩
      · refine ⟨k, ?_⟩
        have hq : s.WaitQueue = [] := by
          rw [hs.queue]
          have : s.heap.length - k = 0 := by omega
          rw [this]
          rfl
        rw [refund_empty s hsold hq]
        exact { total := hs.total
                sold_nonneg := by simp only; omega
                sold_le := by have := hs.sold_le; simp only; omega
                count := hs.count
                promoted_le := hs.promoted_le
                queue := hs.queue
                ids := hs.ids
                finished := hs.finished
                waiting := hs.waiting
                index := hs.index }
    · rw [refund_none s hsold]
      exact ⟨k, hs⟩

theorem inv_runFrom (ops : List Op) : ∀ (s : TicketSystem) (k : Nat), Inv s k →
    ∃ k', Inv (runFrom s ops) k' := by
  induction ops with
  | nil => intro s k hs; exact ⟨k, hs⟩
  | cons op rest ih =>
    intro s k hs
    obtain ⟨k1, h1⟩ := inv_step s k op hs
    exact ih (step s op) k1 h1

theorem inv_run (today : String) (ops : List Op) : ∃ k, Inv (run today ops) k :=
  inv_runFrom ops (NewTicketSystem today) 0 (inv_new today)

/-! ## Claims C1 to C5 -/

/-- C1: in every state reached from `NewTicketSystem` by a finite sequence of
`QueryTicket`, `BuyTicket`, `AddToWaitList`, `CheckWaitPosition` and `ProcessRefund`
calls, `0 ≤ Train.Sold ≤ Train.Total`, and `Train.Total` still has its initial
value. -/
theorem C1_sold_within_capacity (today : String) (ops : List Op) :
    0 ≤ (run today ops).Train.Sold
      ∧ (run today ops).Train.Sold ≤ (run today ops).Train.Total
      ∧ (run today ops).Train.Total = (NewTicketSystem today).Train.Total := by
  obtain ⟨k, hk⟩ := inv_run today ops
  exact ⟨hk.sold_nonneg, hk.sold_le, hk.total⟩

/-- C2: for every state, `BuyTicket` returns success exactly when `Sold < Total`
before the call; on success `Sold` grows by one, on failure it is unchanged; in
both cases `WaitQueue`, `Orders`, `OrderCount`, the waitlist entries and `Total`
are as before, so a passenger who is refused is not enrolled. -/
theorem C2_buy_ticket (ts : TicketSystem) (passenger : Passenger) :
    ((BuyTicket ts passenger).2.1 = true ↔ ts.Train.Sold < ts.Train.Total)
      ∧ (BuyTicket ts passenger).1.Train.Sold
          = (if ts.Train.Sold < ts.Train.Total then ts.Train.Sold + 1 else ts.Train.Sold)
      ∧ (BuyTicket ts passenger).1.Train.Total = ts.Train.Total
      ∧ (BuyTicket ts passenger).1.WaitQueue = ts.WaitQueue
      ∧ (BuyTicket ts passenger).1.Orders = ts.Orders
      ∧ (BuyTicket ts passenger).1.OrderCount = ts.OrderCount
      ∧ (BuyTicket ts passenger).1.heap = ts.heap := by
  unfold BuyTicket
  by_cases h : ts.Train.Sold < ts.Train.Total
  · simp [h]
  · simp [h]

/-- C3: for every state with `Sold ≥ 1` (reachable or not), `ProcessRefund` with a
non-empty queue leaves `Sold` unchanged and removes exactly the head of the queue;
with an empty queue it lowers `Sold` by one and leaves the queue, the order index,
the entries and the order counter unchanged. -/
theorem C3_refund_conservation (ts : TicketSystem) (h : 1 ≤ ts.Train.Sold) :
    (∀ first rest, ts.WaitQueue = first :: rest →
        (ProcessRefund ts).Train.Sold = ts.Train.Sold
          ∧ (ProcessRefund ts).WaitQueue = rest
          ∧ (ProcessRefund ts).WaitQueue.length + 1 = ts.WaitQueue.length)
      ∧ (ts.WaitQueue = [] →
        (ProcessRefund ts).Train.Sold = ts.Train.Sold - 1
          ∧ (ProcessRefund ts).WaitQueue = []
          ∧ (ProcessRefund ts).Orders = ts.Orders
          ∧ (ProcessRefund ts).heap = ts.heap
          ∧ (ProcessRefund ts).OrderCount = ts.OrderCount) := by
  have hs : ts.Train.Sold > 0 := by omega
  constructor
  · intro first rest hq
    rw [refund_cons ts hs first rest hq]
    simp [hq]
  · intro hq
    rw [refund_empty ts hs hq]
    simp [hq]

/-- C3, on the state with one ticket sold and one passenger waiting, and on the
state with one ticket sold and nobody waiting. -/
theorem C3_refund_conservation_witness :
    (1 ≤ soldOneWaitOne.Train.Sold
      ∧ soldOneWaitOne.WaitQueue = [0]
      ∧ (ProcessRefund soldOneWaitOne).Train.Sold = soldOneWaitOne.Train.Sold
      ∧ (ProcessRefund soldOneWaitOne).WaitQueue = [])
    ∧ (1 ≤ soldOne.Train.Sold
      ∧ soldOne.WaitQueue = []
      ∧ (ProcessRefund soldOne).Train.Sold = soldOne.Train.Sold - 1) := by
  have h1 : (1 : Int) ≤ soldOneWaitOne.Train.Sold := by decide
  have h2 : (1 : Int) ≤ soldOne.Train.Sold := by decide
  have q1 : soldOneWaitOne.WaitQueue = [0] := by decide
  have q2 : soldOne.WaitQueue = [] := by decide
  have r1 := (C3_refund_conservation soldOneWaitOne h1).1 0 [] q1
  have r2 := (C3_refund_conservation soldOne h2).2 q2
  exact ⟨⟨h1, q1, r1.1, r1.2.1⟩, ⟨h2, q2, r2.1⟩⟩

/-- C4: for every state with `Sold = 0`, whether or not somebody is waiting,
`ProcessRefund` returns the state it was given: `Sold`, the queue, the entries
with their positions and statuses, the order index and the order counter are all
as before. -/
theorem C4_refund_nothing_sold (ts : TicketSystem) (h : ts.Train.Sold = 0) :
    ProcessRefund ts = ts
      ∧ (ProcessRefund ts).Train.Sold = ts.Train.Sold
      ∧ (ProcessRefund ts).WaitQueue = ts.WaitQueue
      ∧ (ProcessRefund ts).heap = ts.heap
      ∧ (ProcessRefund ts).Orders = ts.Orders
      ∧ (ProcessRefund ts).OrderCount = ts.OrderCount := by
  have : ProcessRefund ts = ts := refund_none ts (by omega)
  rw [this]
  simp

/-- C4, on the state with no ticket sold and one passenger waiting. -/
theorem C4_refund_nothing_sold_witness :
    soldNoneWaitOne.Train.Sold = 0
      ∧ soldNoneWaitOne.WaitQueue = [0]
      ∧ ProcessRefund soldNoneWaitOne = soldNoneWaitOne :=
  ⟨by decide, by decide, (C4_refund_nothing_sold soldNoneWaitOne (by decide)).1⟩

/-- C5 fails as stated: on a fresh system no ticket is sold, and the response to a
refund request still has `success = true`. -/
theorem C5_refund_reported_counterexample :
    fresh.Train.Sold = 0
      ∧ (handleRefund fresh).2.Success = true
      ∧ ¬ ((handleRefund fresh).2.Success = true ↔ fresh.Train.Sold > 0) := by
  decide

/-- C5, amended: the response to a refund request always has `success = true`, the
message `"退票成功"` and no data, whatever `Sold` was before the request; the state
is the one `ProcessRefund` leaves, which with `Sold = 0` is the state before. -/
theorem C5_refund_always_reported_success (ts : TicketSystem) :
    (handleRefund ts).2.Success = true
      ∧ (handleRefund ts).2.Message = "退票成功"
      ∧ (handleRefund ts).2.Data = none
      ∧ (handleRefund ts).1 = ProcessRefund ts
      ∧ (handleRefund ts).1 = (if ts.Train.Sold > 0 then ProcessRefund ts else ts) := by
  refine ⟨rfl, rfl, rfl, rfl, ?_⟩
  by_cases h : ts.Train.Sold > 0
  · rw [if_pos h]; rfl
  · rw [if_neg h]; exact refund_none ts h

/-! ## Series of enrollments and of refunds -/

theorem range'_take_drop (k m j : Nat) (hj : j ≤ m) :
    (List.range' k m).take j = List.range' k j
      ∧ (List.range' k m).drop j = List.range' (k + j) (m - j) := by
  have h : List.range' k m = List.range' k j ++ List.range' (k + j) (m - j) := by
    rw [List.range'_append_1]
    congr 1
    omega
  have hl : (List.range' k j).length = j := by simp
  constructor
  · rw [h, List.take_left' hl]
  · rw [h, List.drop_left' hl]

theorem enrollAll_spec (rs : List (WaitRequest × Nat)) : ∀ (s : TicketSystem) (k : Nat),
    Inv s k →
      Inv (enrollAll s rs).1 k
        ∧ (enrollAll s rs).1.WaitQueue = s.WaitQueue ++ (enrollAll s rs).2
        ∧ (enrollAll s rs).1.Train = s.Train
        ∧ (enrollAll s rs).2 = List.range' s.heap.length rs.length
        ∧ (enrollAll s rs).1.heap.length = s.heap.length + rs.length := by
  induction rs with
  | nil => intro s k hs; simp [enrollAll, hs]
  | cons r rest ih =>
    intro s k hs
    obtain ⟨req, now⟩ := r
    have h1 := inv_add s k req now hs
    obtain ⟨i1, i2, i3, i4, i5⟩ := ih (AddToWaitList s req now).1 k h1
    have hq : (AddToWaitList s req now).1.WaitQueue = s.WaitQueue ++ [s.heap.length] := rfl
    have hp : (AddToWaitList s req now).2 = s.heap.length := rfl
    have hl : (AddToWaitList s req now).1.heap.length = s.heap.length + 1 := by
      simp [AddToWaitList]
    have ht : (AddToWaitList s req now).1.Train = s.Train := rfl
    simp only [enrollAll]
    refine ⟨i1, ?_, ?_, ?_, ?_⟩
    · rw [i2, hq, hp]; simp
    · rw [i3, ht]
    · rw [i4, hp, hl, List.length_cons, List.range'_succ]
    · rw [i5, hl, List.length_cons]; omega

theorem refundTimes_spec (j : Nat) : ∀ (s : TicketSystem) (k : Nat),
    Inv s k → s.Train.Sold > 0 → k + j ≤ s.heap.length →
      Inv (refundTimes j s) (k + j)
        ∧ (refundTimes j s).Train = s.Train
        ∧ (refundTimes j s).heap.length = s.heap.length := by
  induction j with
  | zero => intro s k hs _ _; exact ⟨hs, rfl, rfl⟩
  | succ j ih =>
    intro s k hs hsold hk
    have h1 := inv_refund_promote s k hs hsold (by omega)
    have h2 := refund_promote s k hs hsold (by omega)
    have ht : (ProcessRefund s).Train = s.Train := by rw [h2]
    have hl : (ProcessRefund s).heap.length = s.heap.length := by
      rw [h2]; simp only; rw [renumber_length, store_length]
    obtain ⟨i1, i2, i3⟩ := ih (ProcessRefund s) (k + 1) h1 (by rw [ht]; exact hsold)
      (by rw [hl]; omega)
    simp only [refundTimes]
    refine ⟨?_, ?_, ?_⟩
    · have : k + (j + 1) = k + 1 + j := by omega
      rw [this]; exact i1
    · rw [i2, ht]
    · rw [i3, hl]

/-! ## Claim C6 -/

/-- C6: take any reachable state with `Sold ≥ 1` and enroll `E1..En` by successive
`AddToWaitList` calls.  The queue is then the old queue followed by `E1..En` in
call order, and it is in allocation (enrollment) order.  For every `j` up to its
length, after `j` successive refunds the first `j` entries of that queue have
status `"success"`, the others are still `"waiting"` and form the queue, and
`Sold` is unchanged: the `j+1`-st refund promotes exactly the entry at index `j`,
the earliest enrolled of those still waiting. -/
theorem C6_fifo_promotion (today : String) (ops : List Op) (rs : List (WaitRequest × Nat))
    (h : 1 ≤ (run today ops).Train.Sold) :
    (enrollAll (run today ops) rs).1.WaitQueue
        = (run today ops).WaitQueue ++ (enrollAll (run today ops) rs).2
      ∧ (enrollAll (run today ops) rs).1.WaitQueue.Pairwise (· < ·)
      ∧ ∀ j, j ≤ (enrollAll (run today ops) rs).1.WaitQueue.length →
          (refundTimes j (enrollAll (run today ops) rs).1).WaitQueue
              = (enrollAll (run today ops) rs).1.WaitQueue.drop j
            ∧ (∀ p, p ∈ (enrollAll (run today ops) rs).1.WaitQueue.take j →
                statusOf (refundTimes j (enrollAll (run today ops) rs).1) p = some "success")
            ∧ (∀ p, p ∈ (enrollAll (run today ops) rs).1.WaitQueue.drop j →
                statusOf (refundTimes j (enrollAll (run today ops) rs).1) p = some "waiting")
            ∧ (refundTimes j (enrollAll (run today ops) rs).1).Train.Sold
                = (enrollAll (run today ops) rs).1.Train.Sold := by
  obtain ⟨k, hk⟩ := inv_run today ops
  obtain ⟨e1, e2, e3, _, _⟩ := enrollAll_spec rs (run today ops) k hk
  generalize (enrollAll (run today ops) rs).1 = s1 at *
  have hq := e1.queue
  have hkn := e1.promoted_le
  refine ⟨e2, ?_, ?_⟩
  · rw [hq]
    exact List.pairwise_lt_range' k _
  · intro j hj
    have hjn : j ≤ s1.heap.length - k := by rw [hq] at hj; simpa using hj
    have hsold : s1.Train.Sold > 0 := by rw [e3]; omega
    obtain ⟨r1, r2, r3⟩ := refundTimes_spec j s1 k e1 hsold (by omega)
    obtain ⟨t1, t2⟩ := range'_take_drop k (s1.heap.length - k) j hjn
    refine ⟨?_, ?_, ?_, ?_⟩
    · rw [r1.queue, r3, hq, t2]
      congr 1
      omega
    · intro p hp
      rw [hq, t1, List.mem_range'_1] at hp
      obtain ⟨o, ho⟩ := load_of_lt (refundTimes j s1).heap p (by rw [r3]; omega)
      have := r1.finished p o ho (by omega)
      simp [statusOf, ho, this]
    · intro p hp
      rw [hq, t2, List.mem_range'_1] at hp
      obtain ⟨o, ho⟩ := load_of_lt (refundTimes j s1).heap p (by rw [r3]; omega)
      have := (r1.waiting p o ho (by omega)).1
      simp [statusOf, ho, this]
    · rw [r2]

/-- C6, on the state with one ticket sold and nobody waiting: Alice, Bob and Carol
enroll in this order and get the entries 0, 1 and 2; the first refund promotes
Alice only, the second Bob, the third Carol. -/
theorem C6_fifo_promotion_witness :
    1 ≤ (run "2024-01-01" [Op.buy alice]).Train.Sold
      ∧ (enrollAll (run "2024-01-01" [Op.buy alice]) threeRequests).2 = [0, 1, 2]
      ∧ (enrollAll (run "2024-01-01" [Op.buy alice]) threeRequests).1.WaitQueue = [0, 1, 2]
      ∧ (∀ p, p ∈ [0] →
          statusOf (refundTimes 1 (enrollAll (run "2024-01-01" [Op.buy alice]) threeRequests).1) p
            = some "success")
      ∧ (∀ p, p ∈ [1, 2] →
          statusOf (refundTimes 1 (enrollAll (run "2024-01-01" [Op.buy alice]) threeRequests).1) p
            = some "waiting")
      ∧ (∀ p, p ∈ [0, 1] →
          statusOf (refundTimes 2 (enrollAll (run "2024-01-01" [Op.buy alice]) threeRequests).1) p
            = some "success")
      ∧ (∀ p, p ∈ [2] →
          statusOf (refundTimes 2 (enrollAll (run "2024-01-01" [Op.buy alice]) threeRequests).1) p
            = some "waiting")
      ∧ (∀ p, p ∈ [0, 1, 2] →
          statusOf (refundTimes 3 (enrollAll (run "2024-01-01" [Op.buy alice]) threeRequests).1) p
            = some "success") := by
  have h : (1 : Int) ≤ (run "2024-01-01" [Op.buy alice]).Train.Sold := by decide
  have hq : (enrollAll (run "2024-01-01" [Op.buy alice]) threeRequests).1.WaitQueue = [0, 1, 2] := by
    decide
  have key := (C6_fifo_promotion "2024-01-01" [Op.buy alice] threeRequests h).2.2
  rw [hq] at key
  have k1 := key 1 (by decide)
  have k2 := key 2 (by decide)
  have k3 := key 3 (by decide)
  exact ⟨h, by decide, hq, k1.2.1, k1.2.2.1, k2.2.1, k2.2.2.1, k3.2.1⟩

/-! ## Claim C7 -/

/-- C7: in every reachable state the entry at index `i` of `WaitQueue` has the
stored `Position` `i + 1`, and `CheckWaitPosition` on its order identifier returns
that entry with `Position` `i + 1`; `AddToWaitList` returns an entry whose position
is the queue length after insertion; and a refund made with `Sold ≥ 1` lowers the
position of every entry it leaves in the queue by exactly one. -/
theorem C7_position_invariant (today : String) (ops : List Op) :
    (∀ (i p : Nat), (run today ops).WaitQueue[i]? = some p →
        positionOf (run today ops) p = some ((i : Int) + 1)
          ∧ ∃ id, orderIDOf (run today ops) p = some id
              ∧ (CheckWaitPosition (run today ops) id).2 = some p
              ∧ positionOf (CheckWaitPosition (run today ops) id).1 p = some ((i : Int) + 1))
      ∧ (∀ req now,
          positionOf (AddToWaitList (run today ops) req now).1
              (AddToWaitList (run today ops) req now).2
            = some ((AddToWaitList (run today ops) req now).1.WaitQueue.length : Int))
      ∧ (1 ≤ (run today ops).Train.Sold →
          ∀ p, p ∈ (ProcessRefund (run today ops)).WaitQueue →
            ∃ v, positionOf (run today ops) p = some v
              ∧ positionOf (ProcessRefund (run today ops)) p = some (v - 1)) := by
  obtain ⟨k, hk⟩ := inv_run today ops
  generalize run today ops = s at *
  have hkn := hk.promoted_le
  refine ⟨?_, ?_, ?_⟩
  · intro i p hip
    rw [hk.queue] at hip
    obtain ⟨hlt, hval⟩ := List.getElem?_eq_some_iff.mp hip
    simp only [List.length_range'] at hlt
    simp only [List.getElem_range', one_mul] at hval
    subst hval
    obtain ⟨o, ho⟩ := load_of_lt s.heap (k + i) (by omega)
    have hpos := (hk.waiting (k + i) o ho (by omega)).2
    have hi : k + i - k = i := by omega
    rw [hi] at hpos
    have hid := hk.ids (k + i) o ho
    refine ⟨by simp [positionOf, ho, hpos], o.OrderID, by simp [orderIDOf, ho], ?_, ?_⟩
    · rw [check_result]
      exact (hk.index o.OrderID (k + i)).mpr ⟨by omega, hid⟩
    · rw [check_state s k o.OrderID hk]
      simp [positionOf, ho, hpos]
  · intro req now
    simp [positionOf, AddToWaitList, load_append_one]
  · intro hsold p hp
    have hs : s.Train.Sold > 0 := by omega
    by_cases hlt : k < s.heap.length
    · rw [refund_promote s k hk hs hlt] at hp ⊢
      simp only [List.mem_range'_1] at hp
      obtain ⟨o, ho⟩ := load_of_lt s.heap p (by omega)
      have hpos := (hk.waiting p o ho (by omega)).2
      refine ⟨o.Position, by simp [positionOf, ho], ?_⟩
      have h1 : ¬ p = k := by omega
      have h2 : k < p := by omega
      simp only [positionOf, load_promote, if_neg h1, if_pos h2, ho, Option.map_some',
        setPosition, Option.some.injEq, hpos]
      have : ((p - (k + 1) : Nat) : Int) = ((p - k : Nat) : Int) - 1 := by omega
      rw [this]
      ring
    · have hq : s.WaitQueue = [] := by
        rw [hk.queue]
        have : s.heap.length - k = 0 := by omega
        rw [this]
        rfl
      rw [refund_empty s hs hq, hq] at hp
      cases hp

/-- C7, on the state with one ticket sold and Alice, Bob and Carol waiting: Bob is
at index 1 with position 2, a fourth enrollment gets position 4, and the refund
that promotes Alice moves Bob to position 1. -/
theorem C7_position_invariant_witness :
    soldOneWaitThree.WaitQueue[1]? = some 1
      ∧ positionOf soldOneWaitThree 1 = some 2
      ∧ positionOf (AddToWaitList soldOneWaitThree (requestOf alice) 13).1
          (AddToWaitList soldOneWaitThree (requestOf alice) 13).2 = some 4
      ∧ positionOf (ProcessRefund soldOneWaitThree) 1 = some 1 := by
  have key := C7_position_invariant "2024-01-01"
    [Op.buy alice, Op.wait (requestOf alice) 10, Op.wait (requestOf bob) 11,
      Op.wait (requestOf carol) 12]
  have h1 : soldOneWaitThree.WaitQueue[1]? = some 1 := by decide
  have h2 := (key.1 1 1 h1).1
  have h3 := key.2.1 (requestOf alice) 13
  obtain ⟨v, hv1, hv2⟩ := key.2.2 (by decide) 1 (by decide)
  have hv : v = 2 := by
    have := hv1.symm.trans h2
    simpa using this
  subst hv
  exact ⟨h1, by simpa using h2, h3, by simpa using hv2⟩

/-! ## Claim C8 -/

theorem waitCalls_append (a b : List Op) : waitCalls (a ++ b) = waitCalls a + waitCalls b := by
  induction a with
  | nil => simp [waitCalls]
  | cons op rest ih =>
    have ih2 : waitCalls (rest ++ b) + 1 = waitCalls rest + 1 + waitCalls b := by omega
    cases op
    all_goals first
      | exact ih
      | exact ih2

theorem heap_length_step (s : TicketSystem) (op : Op) :
    (step s op).heap.length = s.heap.length + waitCalls [op] := by
  cases op with
  | query => rfl
  | buy passenger =>
    simp only [step, BuyTicket, waitCalls]
    split <;> rfl
  | wait req now => simp [step, AddToWaitList, waitCalls]
  | check orderID =>
    simp only [step, CheckWaitPosition, waitCalls]
    split
    · rfl
    · split
      · simp [store_length]
      · rfl
  | refund =>
    simp only [step, ProcessRefund, waitCalls]
    split
    · split
      · rfl
      · simp [renumber_length, store_length]
    · rfl

theorem heap_length_runFrom (ops : List Op) : ∀ s : TicketSystem,
    (runFrom s ops).heap.length = s.heap.length + waitCalls ops := by
  induction ops with
  | nil => intro s; rfl
  | cons op rest ih =>
    intro s
    have h1 : runFrom s (op :: rest) = runFrom (step s op) rest := rfl
    have h2 : waitCalls (op :: rest) = waitCalls [op] + waitCalls rest :=
      waitCalls_append [op] rest
    rw [h1, ih, heap_length_step, h2]
    omega

theorem heap_length_run (today : String) (ops : List Op) :
    (run today ops).heap.length = waitCalls ops := by
  unfold run
  rw [heap_length_runFrom]
  simp [NewTicketSystem]

/-- The identifier `AddToWaitList` gives to the order it creates. -/
theorem add_orderID (s : TicketSystem) (req : WaitRequest) (now : Nat) :
    orderIDOf (AddToWaitList s req now).1 (AddToWaitList s req now).2
      = some (sprintfOrder (s.OrderCount + 1)) := by
  simp [orderIDOf, AddToWaitList, load_append_one]

/-- C8: on a system started by `NewTicketSystem`, after any sequence `ops` of calls
that holds `k - 1` calls of `AddToWaitList`, the next `AddToWaitList` returns the
identifier `"ORDER_k"`; that identifier is not yet a key of `Orders`, the call
keeps every key of `Orders` with its entry, and an enrollment made at any later
point of the run returns a different identifier with a strictly larger number. -/
theorem C8_order_identifiers (today : String) (ops : List Op) (req : WaitRequest) (now : Nat) :
    orderIDOf (AddToWaitList (run today ops) req now).1 (AddToWaitList (run today ops) req now).2
        = some ("ORDER_" ++ toString ((waitCalls ops : Int) + 1))
      ∧ (run today ops).Orders ("ORDER_" ++ toString ((waitCalls ops : Int) + 1)) = none
      ∧ (∀ id p, (run today ops).Orders id = some p →
          (AddToWaitList (run today ops) req now).1.Orders id = some p)
      ∧ (∀ (later : List Op) (req2 : WaitRequest) (now2 : Nat),
          orderIDOf (AddToWaitList (run today (ops ++ Op.wait req now :: later)) req2 now2).1
              (AddToWaitList (run today (ops ++ Op.wait req now :: later)) req2 now2).2
            ≠ orderIDOf (AddToWaitList (run today ops) req now).1
                (AddToWaitList (run today ops) req now).2
          ∧ waitCalls ops + 1 < waitCalls (ops ++ Op.wait req now :: later) + 1) := by
  obtain ⟨k, hk⟩ := inv_run today ops
  have hcount : (run today ops).OrderCount = (waitCalls ops : Int) := by
    rw [hk.count, heap_length_run]
  have hfresh : (run today ops).Orders (sprintfOrder ((waitCalls ops : Int) + 1)) = none := by
    cases hO : (run today ops).Orders (sprintfOrder ((waitCalls ops : Int) + 1)) with
    | none => rfl
    | some p =>
      obtain ⟨hp, hid⟩ := (hk.index _ p).mp hO
      have := sprintfOrder_inj (waitCalls ops + 1) (p + 1) (by exact_mod_cast hid)
      rw [heap_length_run] at hp
      omega
  refine ⟨?_, hfresh, ?_, ?_⟩
  · rw [add_orderID, hcount]
    rfl
  · intro id p hid
    have hne : id ≠ sprintfOrder ((run today ops).OrderCount + 1) := by
      intro heq
      rw [heq, hcount, hfresh] at hid
      cases hid
    simp [AddToWaitList, hne, hid]
  · intro later req2 now2
    obtain ⟨k2, hk2⟩ := inv_run today (ops ++ Op.wait req now :: later)
    have hcount2 : (run today (ops ++ Op.wait req now :: later)).OrderCount
        = (waitCalls (ops ++ Op.wait req now :: later) : Int) := by
      rw [hk2.count, heap_length_run]
    have hw : waitCalls (ops ++ Op.wait req now :: later)
        = waitCalls ops + (waitCalls later + 1) := by
      rw [waitCalls_append]
      rfl
    refine ⟨?_, by omega⟩
    rw [add_orderID, add_orderID, hcount, hcount2]
    intro heq
    have h1 := Option.some.inj heq
    have := sprintfOrder_inj (waitCalls (ops ++ Op.wait req now :: later) + 1)
      (waitCalls ops + 1) (by exact_mod_cast h1)
    omega

/-- C8, on a run with a purchase, two enrollments and the refund that promotes the
first of them: the third enrollment gets `"ORDER_3"`, which is not yet a key of
`Orders`. -/
theorem C8_order_identifiers_witness :
    orderIDOf
        (AddToWaitList (run "2024-01-01" [Op.buy alice, Op.wait (requestOf alice) 10,
          Op.wait (requestOf bob) 11, Op.refund]) (requestOf carol) 12).1
        (AddToWaitList (run "2024-01-01" [Op.buy alice, Op.wait (requestOf alice) 10,
          Op.wait (requestOf bob) 11, Op.refund]) (requestOf carol) 12).2
        = some "ORDER_3"
      ∧ (run "2024-01-01" [Op.buy alice, Op.wait (requestOf alice) 10,
          Op.wait (requestOf bob) 11, Op.refund]).Orders "ORDER_3" = none := by
  have key := C8_order_identifiers "2024-01-01" [Op.buy alice, Op.wait (requestOf alice) 10,
    Op.wait (requestOf bob) 11, Op.refund] (requestOf carol) 12
  have hid : "ORDER_" ++ toString ((waitCalls [Op.buy alice, Op.wait (requestOf alice) 10,
      Op.wait (requestOf bob) 11, Op.refund] : Int) + 1) = "ORDER_3" := by decide
  rw [hid] at key
  exact ⟨key.1, key.2.1⟩

/-! ## Claim C9 -/

/-- C9 fails as stated: after the refund that promotes the only waiting entry,
`CheckWaitPosition` on its order identifier finds the entry, and its status is the
string `"success"`, not `"promoted"`. -/
theorem C9_promoted_status_counterexample :
    1 ≤ soldOneWaitOne.Train.Sold
      ∧ soldOneWaitOne.WaitQueue = [0]
      ∧ statusOf soldOneWaitOne 0 = some "waiting"
      ∧ (CheckWaitPosition (ProcessRefund soldOneWaitOne) "ORDER_1").2 = some 0
      ∧ statusOf (CheckWaitPosition (ProcessRefund soldOneWaitOne) "ORDER_1").1 0 = some "success"
      ∧ statusOf (CheckWaitPosition (ProcessRefund soldOneWaitOne) "ORDER_1").1 0
          ≠ some "promoted" := by
  decide

/-- C9, amended: in every reachable state every entry has status `"waiting"` or
`"success"`, the queue holds each entry with status `"waiting"` exactly once and
no other, and every pointer in the queue refers to an entry.  When `ProcessRefund`
runs with `Sold ≥ 1` and a non-empty queue, the status of the head changes from
`"waiting"` to `"success"`, the head leaves the queue, and `CheckWaitPosition` on
its order identifier still finds it, with status `"success"`. -/
theorem C9_promotion_transition (today : String) (ops : List Op) :
    (∀ p o, load (run today ops).heap p = some o →
        (o.Status = "waiting" ∨ o.Status = "success")
          ∧ (p ∈ (run today ops).WaitQueue ↔ o.Status = "waiting"))
      ∧ (∀ p, p ∈ (run today ops).WaitQueue → ∃ o, load (run today ops).heap p = some o)
      ∧ (run today ops).WaitQueue.Nodup
      ∧ (1 ≤ (run today ops).Train.Sold →
          ∀ first rest, (run today ops).WaitQueue = first :: rest →
            statusOf (run today ops) first = some "waiting"
              ∧ statusOf (ProcessRefund (run today ops)) first = some "success"
              ∧ (ProcessRefund (run today ops)).WaitQueue = rest
              ∧ first ∉ (ProcessRefund (run today ops)).WaitQueue
              ∧ ∃ id, orderIDOf (run today ops) first = some id
                  ∧ (CheckWaitPosition (ProcessRefund (run today ops)) id).2 = some first
                  ∧ statusOf (CheckWaitPosition (ProcessRefund (run today ops)) id).1 first
                      = some "success") := by
  obtain ⟨k, hk⟩ := inv_run today ops
  generalize run today ops = s at *
  have hkn := hk.promoted_le
  refine ⟨?_, ?_, ?_, ?_⟩
  · intro p o ho
    have hp := load_lt s.heap p o ho
    rw [hk.queue, List.mem_range'_1]
    by_cases hpk : p < k
    · have h1 := hk.finished p o ho hpk
      refine ⟨Or.inr h1, ?_⟩
      rw [h1]
      constructor
      · intro h; omega
      · intro h; exact absurd h (by decide)
    · have h1 := (hk.waiting p o ho (by omega)).1
      refine ⟨Or.inl h1, ?_⟩
      constructor
      · intro _; exact h1
      · intro _; omega
  · intro p hp
    rw [hk.queue, List.mem_range'_1] at hp
    exact load_of_lt s.heap p (by omega)
  · rw [hk.queue]
    exact List.nodup_range' k _
  · intro hsold first rest hq
    have hs : s.Train.Sold > 0 := by omega
    have hq2 := hk.queue
    rw [hq] at hq2
    have hlt : k < s.heap.length := by
      by_contra hcon
      have : s.heap.length - k = 0 := by omega
      rw [this] at hq2
      cases hq2
    have hsplit : s.heap.length - k = (s.heap.length - (k + 1)) + 1 := by omega
    rw [hsplit, List.range'_succ] at hq2
    obtain ⟨hfirst, hrest⟩ := List.cons.inj hq2
    subst hfirst
    obtain ⟨o, ho⟩ := load_of_lt s.heap first hlt
    have hw := (hk.waiting first o ho (le_refl _)).1
    have hinv := inv_refund_promote s first hk hs hlt
    have hstate := refund_promote s first hk hs hlt
    have hload : load (ProcessRefund s).heap first = some (setStatus "success" o) := by
      rw [hstate]
      simp only [load_promote, if_true, ho, Option.map_some']
    have hstat : statusOf (ProcessRefund s) first = some "success" := by
      simp [statusOf, hload, setStatus]
    have hqueue : (ProcessRefund s).WaitQueue = rest := by
      rw [hstate, hrest]
    refine ⟨by simp [statusOf, ho, hw], hstat, hqueue, ?_, o.OrderID,
      by simp [orderIDOf, ho], ?_, ?_⟩
    · rw [hqueue, hrest, List.mem_range'_1]
      omega
    · rw [check_result]
      apply (hinv.index o.OrderID first).mpr
      refine ⟨?_, hk.ids first o ho⟩
      rw [hstate]
      simp only
      rw [renumber_length, store_length]
      exact hlt
    · rw [check_state (ProcessRefund s) (first + 1) o.OrderID hinv]
      exact hstat

/-- C9 amended, on the state with one ticket sold and one passenger waiting. -/
theorem C9_promotion_transition_witness :
    1 ≤ soldOneWaitOne.Train.Sold
      ∧ soldOneWaitOne.WaitQueue = [0]
      ∧ statusOf soldOneWaitOne 0 = some "waiting"
      ∧ statusOf (ProcessRefund soldOneWaitOne) 0 = some "success"
      ∧ (ProcessRefund soldOneWaitOne).WaitQueue = [] := by
  have h : (1 : Int) ≤ soldOneWaitOne.Train.Sold := by decide
  have hq : soldOneWaitOne.WaitQueue = [0] := by decide
  have key := (C9_promotion_transition "2024-01-01"
    [Op.buy alice, Op.wait (requestOf bob) 10]).2.2.2 h 0 [] hq
  exact ⟨h, hq, key.1, key.2.1, key.2.2.1⟩

/-! ## Claim C10 -/

/-- No call removes a key of `Orders` or changes the entry it maps to. -/
theorem orders_step (s : TicketSystem) (k : Nat) (op : Op) (hs : Inv s k) (id : String) (p : Nat)
    (h : s.Orders id = some p) : (step s op).Orders id = some p := by
  cases op with
  | query => exact h
  | buy passenger =>
    simp only [step, BuyTicket]
    split
    · exact h
    · exact h
  | wait req now =>
    obtain ⟨hp, hid⟩ := (hs.index id p).mp h
    have hne : ¬ id = sprintfOrder (s.OrderCount + 1) := by
      rw [hid, hs.count]
      intro heq
      have := sprintfOrder_inj (p + 1) (s.heap.length + 1) (by exact_mod_cast heq)
      omega
    simp only [step, AddToWaitList, if_neg hne]
    exact h
  | check orderID =>
    simp only [step]
    rw [check_state s k orderID hs]
    exact h
  | refund =>
    simp only [step, ProcessRefund]
    split
    · split
      · exact h
      · exact h
    · exact h

/-- The identifiers issued along a sequence of calls are the formatted numbers
that follow the number of entries allocated before. -/
theorem issued_spec (ops : List Op) : ∀ (s : TicketSystem) (k : Nat), Inv s k →
    issued s ops
      = (List.range' s.heap.length (waitCalls ops)).map (fun p : Nat => sprintfOrder ((p : Int) + 1)) := by
  induction ops with
  | nil => intro s k _; rfl
  | cons op rest ih =>
    intro s k hs
    obtain ⟨k1, h1⟩ := inv_step s k op hs
    have hl := heap_length_step s op
    have ih1 := ih (step s op) k1 h1
    cases op with
    | wait req now =>
      simp only [issued, waitCalls, List.range'_succ, List.map_cons]
      rw [ih1, hl, add_orderID, hs.count]
      rfl
    | query => simpa [issued, waitCalls, hl] using ih1
    | buy passenger => simpa [issued, waitCalls, hl] using ih1
    | check orderID => simpa [issued, waitCalls, hl] using ih1
    | refund => simpa [issued, waitCalls, hl] using ih1

/-- C10: in every reachable state `CheckWaitPosition id` reports found exactly when
`id` was returned by an `AddToWaitList` call made earlier in the run, whether that
entry is still waiting or not, and `(nil, false)` for every other `id`;
`handleCheckWait` answers with `success` accordingly; on a system without
enrollments `"ORDER_999"` is not found; and no call removes a key of `Orders` or
changes the entry it maps to. -/
theorem C10_check_found (today : String) (ops : List Op) (id : String) :
    ((CheckWaitPosition (run today ops) id).2.isSome = true
        ↔ id ∈ issued (NewTicketSystem today) ops)
      ∧ ((CheckWaitPosition (run today ops) id).2 = none
        ↔ id ∉ issued (NewTicketSystem today) ops)
      ∧ ((handleCheckWait (run today ops) (some { OrderID := id })).2.Success = true
        ↔ id ∈ issued (NewTicketSystem today) ops)
      ∧ (CheckWaitPosition (NewTicketSystem today) "ORDER_999").2 = none
      ∧ (∀ op p, (run today ops).Orders id = some p →
          (step (run today ops) op).Orders id = some p) := by
  obtain ⟨k, hk⟩ := inv_run today ops
  have hiss := issued_spec ops (NewTicketSystem today) 0 (inv_new today)
  have hlen := heap_length_run today ops
  have hmem : id ∈ issued (NewTicketSystem today) ops
      ↔ ∃ p : Nat, p < waitCalls ops ∧ id = sprintfOrder ((p : Int) + 1) := by
    rw [hiss]
    simp only [List.mem_map, List.mem_range'_1]
    have h0 : (NewTicketSystem today).heap.length = 0 := rfl
    rw [h0]
    constructor
    · rintro ⟨p, ⟨_, hp⟩, rfl⟩
      exact ⟨p, by omega, rfl⟩
    · rintro ⟨p, hp, rfl⟩
      exact ⟨p, ⟨by omega, by omega⟩, rfl⟩
  have hfound : (CheckWaitPosition (run today ops) id).2.isSome = true
      ↔ id ∈ issued (NewTicketSystem today) ops := by
    rw [check_result, hmem, Option.isSome_iff_exists]
    constructor
    · rintro ⟨p, hp⟩
      obtain ⟨h1, h2⟩ := (hk.index id p).mp hp
      exact ⟨p, by omega, h2⟩
    · rintro ⟨p, h1, h2⟩
      exact ⟨p, (hk.index id p).mpr ⟨by omega, h2⟩⟩
  refine ⟨hfound, ?_, ?_, rfl, ?_⟩
  · rw [← hfound]
    cases (CheckWaitPosition (run today ops) id).2 <;> simp
  · rw [← hfound]
    simp only [handleCheckWait]
    cases (CheckWaitPosition (run today ops) id).2 <;> simp [sendResponse]
  · intro op p h
    exact orders_step (run today ops) k op hk id p h

/-- C10, on a run with a purchase, an enrollment and the refund that promotes it:
`"ORDER_1"` was issued and is found, `"ORDER_2"` was not and is not. -/
theorem C10_check_found_witness :
    issued (NewTicketSystem "2024-01-01")
        [Op.buy alice, Op.wait (requestOf bob) 10, Op.refund] = ["ORDER_1"]
      ∧ (CheckWaitPosition (run "2024-01-01"
          [Op.buy alice, Op.wait (requestOf bob) 10, Op.refund]) "ORDER_1").2.isSome = true
      ∧ (CheckWaitPosition (run "2024-01-01"
          [Op.buy alice, Op.wait (requestOf bob) 10, Op.refund]) "ORDER_2").2 = none := by
  have hi : issued (NewTicketSystem "2024-01-01")
      [Op.buy alice, Op.wait (requestOf bob) 10, Op.refund] = ["ORDER_1"] := by decide
  have k1 := (C10_check_found "2024-01-01"
    [Op.buy alice, Op.wait (requestOf bob) 10, Op.refund] "ORDER_1").1
  have k2 := (C10_check_found "2024-01-01"
    [Op.buy alice, Op.wait (requestOf bob) 10, Op.refund] "ORDER_2").2.1
  rw [hi] at k1 k2
  exact ⟨hi, k1.mpr (by decide), k2.mpr (by decide)⟩

/-! ## Series of purchases -/

/-- A call other than `BuyTicket` and `ProcessRefund` leaves the train as it is. -/
theorem train_step (s : TicketSystem) (op : Op) (hr : op ≠ Op.refund)
    (hb : ∀ passenger, op ≠ Op.buy passenger) : (step s op).Train = s.Train := by
  cases op with
  | query => rfl
  | buy passenger => exact absurd rfl (hb passenger)
  | wait req now => rfl
  | check orderID =>
    simp only [step, CheckWaitPosition]
    split
    · rfl
    · split <;> rfl
  | refund => exact absurd rfl hr

/-- Without refunds, the purchases of a sequence of calls succeed until the seats
left at the start are used up, and fail from then on. -/
theorem buyResults_spec (ops : List Op) : ∀ (s : TicketSystem) (free : Nat),
    s.Train.Total = s.Train.Sold + (free : Int) → Op.refund ∉ ops →
      (buyResults s ops).count true = min (buyCalls ops) free
        ∧ (buyResults s ops).count false = buyCalls ops - free
        ∧ (buyResults s ops).length = buyCalls ops
        ∧ (runFrom s ops).Train.Sold = s.Train.Sold + ((min (buyCalls ops) free : Nat) : Int)
        ∧ (runFrom s ops).Train.Total = s.Train.Total := by
  induction ops with
  | nil => intro s free _ _; simp [buyResults, buyCalls, runFrom]
  | cons op rest ih =>
    intro s free hfree hno
    have hrest : Op.refund ∉ rest := fun h => hno (List.mem_cons_of_mem _ h)
    have hop : op ≠ Op.refund := fun h => hno (by rw [h]; exact List.mem_cons_self _ _)
    have hrun : runFrom s (op :: rest) = runFrom (step s op) rest := rfl
    cases op with
    | buy passenger =>
      by_cases hlt : s.Train.Sold < s.Train.Total
      · have hres : (BuyTicket s passenger).2.1 = true := by simp [BuyTicket, hlt]
        have hsold : (step s (Op.buy passenger)).Train.Sold = s.Train.Sold + 1 := by
          simp [step, BuyTicket, hlt]
        have htot : (step s (Op.buy passenger)).Train.Total = s.Train.Total := by
          simp [step, BuyTicket, hlt]
        obtain ⟨f, hf⟩ : ∃ f, free = f + 1 := ⟨free - 1, by omega⟩
        subst hf
        obtain ⟨i1, i2, i3, i4, i5⟩ := ih (step s (Op.buy passenger)) f
          (by rw [htot, hsold, hfree]; push_cast; ring) hrest
        simp only [buyResults, buyCalls, hres, List.count_cons_self, List.length_cons, hrun]
        refine ⟨by rw [i1]; omega, ?_, by rw [i3], ?_, by rw [i5, htot]⟩
        · rw [List.count_cons_of_ne (by decide), i2]; omega
        · rw [i4, hsold]
          have : min (buyCalls rest + 1) (f + 1) = min (buyCalls rest) f + 1 := by omega
          rw [this]; push_cast; ring
      · have hres : (BuyTicket s passenger).2.1 = false := by simp [BuyTicket, hlt]
        have hstep : step s (Op.buy passenger) = s := by simp [step, BuyTicket, hlt]
        have hz : free = 0 := by omega
        subst hz
        obtain ⟨i1, i2, i3, i4, i5⟩ := ih s 0 hfree hrest
        simp only [buyResults, buyCalls, hres, hstep, List.count_cons_self, List.length_cons,
          hrun]
        refine ⟨?_, by rw [i2]; omega, by rw [i3], ?_, i5⟩
        · rw [List.count_cons_of_ne (by decide), i1]; omega
        · rw [i4]
          have : min (buyCalls rest + 1) 0 = min (buyCalls rest) 0 := by omega
          rw [this]
    | query =>
      exact ih s free hfree hrest
    | wait req now =>
      have ht := train_step s (Op.wait req now) hop (by intro p h; cases h)
      have := ih (step s (Op.wait req now)) free (by rw [ht]; exact hfree) hrest
      rw [ht] at this
      exact this
    | check orderID =>
      have ht := train_step s (Op.check orderID) hop (by intro p h; cases h)
      have := ih (step s (Op.check orderID)) free (by rw [ht]; exact hfree) hrest
      rw [ht] at this
      exact this
    | refund => exact absurd rfl hop

/-! ## Claim C11 -/

/-- C11: take a state with `Sold = 0` and capacity `Total = C`, and any serial
order of calls without a refund that holds `N` calls of `BuyTicket`, with `C < N`.
Exactly `C` of the purchases return success and `N - C` return failure, and the
final `Sold` is `C`, which does not exceed `Total`. -/
theorem C11_no_overselling (ts : TicketSystem) (ops : List Op) (C : Nat)
    (hsold : ts.Train.Sold = 0) (hcap : ts.Train.Total = (C : Int))
    (hno : Op.refund ∉ ops) (hN : C < buyCalls ops) :
    (buyResults ts ops).length = buyCalls ops
      ∧ (buyResults ts ops).count true = C
      ∧ (buyResults ts ops).count false = buyCalls ops - C
      ∧ (runFrom ts ops).Train.Sold = (C : Int)
      ∧ (runFrom ts ops).Train.Sold ≤ (runFrom ts ops).Train.Total := by
  obtain ⟨h1, h2, h3, h4, h5⟩ := buyResults_spec ops ts C (by rw [hcap, hsold]; ring) hno
  have hmin : min (buyCalls ops) C = C := by omega
  rw [hmin] at h1 h4
  refine ⟨h3, h1, h2, ?_, ?_⟩
  · rw [h4, hsold]; ring
  · rw [h4, h5, hsold, hcap]; omega

set_option maxRecDepth 100000 in
/-- C11, on a fresh system (capacity 100) and the purchases of 101 clients: 100
succeed, one fails, and 100 tickets are sold. -/
theorem C11_no_overselling_witness :
    fresh.Train.Sold = 0
      ∧ fresh.Train.Total = 100
      ∧ buyCalls (purchases 101) = 101
      ∧ (buyResults fresh (purchases 101)).count true = 100
      ∧ (buyResults fresh (purchases 101)).count false = 1
      ∧ (runFrom fresh (purchases 101)).Train.Sold = 100 := by
  have hs : fresh.Train.Sold = 0 := by decide
  have hc : fresh.Train.Total = ((100 : Nat) : Int) := by decide
  have hn : buyCalls (purchases 101) = 101 := by decide
  have hno : Op.refund ∉ purchases 101 := by decide
  have key := C11_no_overselling fresh (purchases 101) 100 hs hc hno (by rw [hn]; decide)
  rw [hn] at key
  exact ⟨hs, hc, hn, key.2.1, key.2.2.1, key.2.2.2.1⟩

end TrainTicket
